import Mathlib

/-!
# fleta_v1 : the TCP peer transport (`service/p2p/tcp_peer_old.go`)

A shallow embedding of `TCPPeer` and of its operations `NewTCPPeer`, `Close`,
`IsClosed`, `ReadPacket`, `SendPacket` and of the keepalive goroutine started by
`NewTCPPeer`.

* A byte is a `Fin 256`.
* `uint16`, `uint32` and `uint64` values are natural numbers, reduced explicitly
  modulo `2^16`, `2^32`, `2^64` where the Go code computes in that width.
* A Go call that returns `([]byte, error)` and may also end in a run-time panic
  returns a `ReadResult`.
* The connection is explicit state: the bytes the remote still delivers, the
  writes accepted so far and the number of calls of `conn.Close`.
-/

namespace P2P

/-- One octet of the wire. -/
abbrev Byte := Fin 256

/-- The state of a `net.Conn` as the peer sees it.  `input` holds the bytes the
remote side still delivers before the stream ends or a read fails; `written`
holds, per accepted call of `Write`, the bytes that went out; `closeCalls`
counts the calls of `conn.Close`. -/
structure Conn where
  input : List Byte
  written : List (List Byte)
  closeCalls : Nat
  deriving DecidableEq, Repr

/-- What the transport does on the next write attempt: whether
`SetWriteDeadline` succeeds, and whether `Write` succeeds; a failing `Write`
has put `sent` bytes of the buffer on the wire before it failed. -/
structure WriteEnv where
  deadlineOk : Bool
  writeOk : Bool
  sent : Nat
  deriving DecidableEq, Repr

/-- The fields of the Go struct `TCPPeer` (the embedded mutex is left out: every
operation below runs to its end before the next one starts). -/
structure TCPPeer where
  conn : Conn
  id : String
  name : String
  isClose : Bool
  connectedTime : Int
  pingCount : Nat
  pingType : Nat
  deriving DecidableEq, Repr

/-- The three ways a call of `ReadPacket` ends: `(bs, nil)`, `(nil, err)`, or a
run-time panic (index or slice bounds out of range). -/
inductive ReadResult where
  | ok (bs : List Byte)
  | err
  | panic
  deriving DecidableEq, Repr

/-! ## Little-endian helpers (`common/binutil`) -/

/-- Modelled from the spec: `binutil.LittleEndian.Uint16ToBytes`, which is not
among the sources; the wire format is "type: 2 bytes little-endian". -/
def Uint16ToBytes (v : Nat) : List Byte :=
  [Fin.ofNat v, Fin.ofNat (v / 256)]

/-- Modelled from the spec: the 4-byte little-endian encoding of a `uint32`
("length: 4 bytes little-endian"); `binutil` is not among the sources. -/
def Uint32ToBytes (v : Nat) : List Byte :=
  [Fin.ofNat v, Fin.ofNat (v / 256), Fin.ofNat (v / 65536), Fin.ofNat (v / 16777216)]

/-- Modelled from the spec: `binutil.LittleEndian.PutUint16(b, v)`, not among the
sources: it stores the two little-endian bytes of `v` at `b[0]`, `b[1]`; on a
slice shorter than two bytes the index is out of range (`none`). -/
def PutUint16 (b : List Byte) (v : Nat) : Option (List Byte) :=
  if b.length < 2 then none else some (Uint16ToBytes v ++ b.drop 2)

/-- Modelled from the spec: `binutil.LittleEndian.PutUint32(b, v)`, not among the
sources: it stores the four little-endian bytes of `v` at `b[0..3]`; on a slice
shorter than four bytes the index is out of range (`none`). -/
def PutUint32 (b : List Byte) (v : Nat) : Option (List Byte) :=
  if b.length < 4 then none else some (Uint32ToBytes v ++ b.drop 4)

/-- The Go slice expression `bs[lo:]`: the two parts of `bs` before and from
offset `lo`; slice bounds out of range (`none`) when `lo > len(bs)`. -/
def sliceFrom (bs : List Byte) (lo : Nat) : Option (List Byte × List Byte) :=
  if bs.length < lo then none else some (bs.take lo, bs.drop lo)

/-- The Go expression `make([]byte, n)`. -/
def makeBytes (n : Nat) : List Byte := List.replicate n 0

/-! ## Reading from the connection (`service/p2p`, helpers of `ReadPacket`) -/

/-- Modelled from the spec: `FillBytes(r, bs)`, not among the sources: it reads
until `len(bs)` bytes have arrived ("blocks until a full header and payload are
available, else fails with a transport error").  When the stream ends first,
what was left of it has been consumed and the call fails. -/
def FillBytes (c : Conn) (n : Nat) : Option (List Byte) × Conn :=
  if n ≤ c.input.length then (some (c.input.take n), { c with input := c.input.drop n })
  else (none, { c with input := [] })

/-- Modelled from the spec: `ReadUint16(r)`, not among the sources: two bytes,
little-endian. -/
def ReadUint16 (c : Conn) : Option Nat × Conn :=
  match FillBytes c 2 with
  | (some [b0, b1], c1) => (some (b0.val + 256 * b1.val), c1)
  | (_, c1) => (none, c1)

/-- Modelled from the spec: `ReadUint32(r)`, not among the sources: four bytes,
little-endian. -/
def ReadUint32 (c : Conn) : Option Nat × Conn :=
  match FillBytes c 4 with
  | (some [b0, b1, b2, b3], c1) =>
      (some (b0.val + 256 * b1.val + 65536 * b2.val + 16777216 * b3.val), c1)
  | (_, c1) => (none, c1)

/-! ## The peer -/

/-- The method `conn.Close` of the connection: every call is counted. -/
def Conn.Close (c : Conn) : Conn := { c with closeCalls := c.closeCalls + 1 }

/-- The method `TCPPeer.Close`: set the flag, then call `conn.Close`. -/
def Close (p : TCPPeer) : TCPPeer :=
  { p with isClose := true, conn := p.conn.Close }

/-- The method `TCPPeer.IsClosed`. -/
def IsClosed (p : TCPPeer) : Bool := p.isClose

/-- The method `TCPPeer.ReadPacket`.  Each round of the `for` reads a type code,
stores 0 in `pingCount`, and starts over when the type is the ping type;
otherwise it reads the length, allocates `6+Len` bytes (a `uint32` sum), stores
type and length and fills the rest from the connection. -/
def ReadPacket (p : TCPPeer) : ReadResult × TCPPeer :=
  match h : ReadUint16 p.conn with
  | (none, c1) => (.err, { p with conn := c1 })
  | (some t, c1) =>
    let p1 : TCPPeer := { p with conn := c1, pingCount := 0 }
    if t = p.pingType then
      ReadPacket p1
    else
      match ReadUint32 c1 with
      | (none, c2) => (.err, { p1 with conn := c2 })
      | (some Len, c2) =>
        let p2 : TCPPeer := { p1 with conn := c2 }
        let bs := makeBytes ((6 + Len) % 2 ^ 32)
        match PutUint16 bs t with
        | none => (.panic, p2)
        | some bs1 =>
          match sliceFrom bs1 2 with
          | none => (.panic, p2)
          | some (pre2, tail2) =>
            match PutUint32 tail2 Len with
            | none => (.panic, p2)
            | some tail2' =>
              let bs2 := pre2 ++ tail2'
              match sliceFrom bs2 6 with
              | none => (.panic, p2)
              | some (pre6, tail6) =>
                match FillBytes c2 tail6.length with
                | (none, c3) => (.err, { p2 with conn := c3 })
                | (some payload, c3) => (.ok (pre6 ++ payload), { p2 with conn := c3 })
termination_by p.conn.input.length
decreasing_by
  unfold ReadUint16 FillBytes at h
  split at h
  · rename_i b0 b1 c2 heq
    split at heq
    · simp only [Prod.mk.injEq, Option.some.injEq] at heq h
      obtain ⟨-, rfl⟩ := heq
      obtain ⟨-, rfl⟩ := h
      simp only [List.length_drop]
      omega
    · simp at heq
  · simp at h

/-- Modelled from the spec: `encode(type, payload)`, which is not among the
sources: it produces `[type:2][length:4][payload]`, both numbers
little-endian. -/
def encodePacket (t : Nat) (payload : List Byte) : List Byte :=
  Uint16ToBytes t ++ Uint32ToBytes payload.length ++ payload

/-- The stream behind its leading keepalive type codes. -/
def skipPings (pingType : Nat) : List Byte → List Byte
  | b0 :: b1 :: rest =>
    if b0.val + 256 * b1.val = pingType then skipPings pingType rest else b0 :: b1 :: rest
  | l => l

/-- The result of `ReadPacket` told from the stream alone: behind the leading
keepalives a header of six bytes is needed; a length `Len` with `6+Len` beyond
32 bits is the panic, otherwise the frame is returned when `Len` payload bytes
are there and the read fails when they are not. -/
def decodeOutcome (pingType : Nat) (input : List Byte) : ReadResult :=
  match skipPings pingType input with
  | b0 :: b1 :: l0 :: l1 :: l2 :: l3 :: rest =>
    let Len := l0.val + 256 * l1.val + 65536 * l2.val + 16777216 * l3.val
    if 2 ^ 32 ≤ 6 + Len then .panic
    else if Len ≤ rest.length then .ok ([b0, b1, l0, l1, l2, l3] ++ rest.take Len)
    else .err
  | _ => .err

/-- The type code, the length and the payload read back from a frame of at
least six bytes. -/
def decodeFrame : List Byte → Option (Nat × Nat × List Byte)
  | b0 :: b1 :: l0 :: l1 :: l2 :: l3 :: payload =>
    some (b0.val + 256 * b1.val,
      l0.val + 256 * l1.val + 65536 * l2.val + 16777216 * l3.val, payload)
  | _ => none

/-- The peer once `ReadPacket` has read a type code (so `pingCount` is 0) and
the connection still has `s` to deliver. -/
def afterType (p : TCPPeer) (s : List Byte) : TCPPeer :=
  { p with conn := { p.conn with input := s }, pingCount := 0 }

/-- The peer once a read has failed before any type code was read: the stream
is used up, nothing else has changed. -/
def drained (p : TCPPeer) : TCPPeer :=
  { p with conn := { p.conn with input := [] } }

/-- The keepalive packet on the wire: the ping type code alone. -/
def pingBytes (pingType : Nat) : List Byte := Uint16ToBytes pingType

/-- The stream of `k` keepalive packets. -/
def pings (pingType : Nat) : Nat → List Byte
  | 0 => []
  | k + 1 => pingBytes pingType ++ pings pingType k

/-! ## Writing to the connection -/

/-- The method `conn.SetWriteDeadline`: it succeeds or fails as the transport
decides and leaves the stream as it is. -/
def Conn.SetWriteDeadline (c : Conn) (env : WriteEnv) : Bool × Conn :=
  (env.deadlineOk, c)

/-- The method `conn.Write(bs)`: a successful call puts `bs` on the wire; a
failing call has put the first `env.sent` bytes of it there. -/
def Conn.Write (c : Conn) (bs : List Byte) (env : WriteEnv) : Bool × Conn :=
  if env.writeOk then (true, { c with written := c.written ++ [bs] })
  else (false, { c with written := c.written ++ [bs.take env.sent] })

/-- The method `TCPPeer.SendPacket`: nothing when the peer is closed; otherwise
set the deadline and write, and call `Close` when either fails.  No value is
returned. -/
def SendPacket (p : TCPPeer) (bs : List Byte) (env : WriteEnv) : TCPPeer :=
  if p.isClose then p
  else
    match p.conn.SetWriteDeadline env with
    | (false, c1) => Close { p with conn := c1 }
    | (true, c1) =>
      match c1.Write bs env with
      | (false, c2) => Close { p with conn := c2 }
      | (true, c2) => { p with conn := c2 }

/-- The function `NewTCPPeer` without the goroutine it starts (that one is
`keepaliveStep` below).  `hashed` stands for
`types.DefineHashedType("p2p.PingMessage")`, a `uint16` whose definition is not
among the sources. -/
def NewTCPPeer (conn : Conn) (ID Name : String) (connectedTime : Int) (hashed : Nat) :
    TCPPeer :=
  let Name := if Name.length = 0 then ID else Name
  { conn := conn, id := ID, name := Name, isClose := false, connectedTime := connectedTime,
    pingCount := 0, pingType := hashed % 2 ^ 16 }

/-- A new peer, as `NewTCPPeer` makes it, on a fresh connection that delivers
`input`. -/
def peerOn (hashed : Nat) (input : List Byte) : TCPPeer :=
  NewTCPPeer { input := input, written := [], closeCalls := 0 } "peer" "" 0 hashed

/-! ## The keepalive goroutine of `NewTCPPeer` -/

/-- The local `pingCountLimit := uint64(3)`. -/
def pingCountLimit : Nat := 3

/-- The seconds of `time.Sleep(3 * time.Second)`. -/
def pingInterval : Nat := 3

/-- How one round of the goroutine's `for` body ends: at the `time.Sleep`, or at
one of its three `return`s. -/
inductive PingOutcome where
  | sleep
  | deadlineFailed
  | writeFailed
  | limitExceeded
  deriving DecidableEq, Repr

/-- Why the goroutine has left its loop. -/
inductive ExitCause where
  | closedFlag
  | deadlineFailed
  | writeFailed
  | limitExceeded
  deriving DecidableEq, Repr

/-- The body of the goroutine's `for`, up to the sleep: set the deadline, write
the ping type, add 1 to `pingCount` (a `uint64`) and compare with the limit. -/
def pingRound (p : TCPPeer) (env : WriteEnv) : PingOutcome × TCPPeer :=
  match p.conn.SetWriteDeadline env with
  | (false, c1) => (.deadlineFailed, { p with conn := c1 })
  | (true, c1) =>
    match c1.Write (Uint16ToBytes p.pingType) env with
    | (false, c2) => (.writeFailed, { p with conn := c2 })
    | (true, c2) =>
      let n := (p.pingCount + 1) % 2 ^ 64
      let p1 : TCPPeer := { p with conn := c2, pingCount := n }
      if n > pingCountLimit then (.limitExceeded, p1) else (.sleep, p1)

/-- The goroutine: the peer it works on, the seconds it has slept so far, and
why it has ended (`none` while it runs). -/
structure KeepaliveTask where
  peer : TCPPeer
  slept : Nat
  exit : Option ExitCause
  deriving DecidableEq, Repr

/-- One turn of the goroutine: test `!p.isClose`, run the body, sleep; when
the loop is left the deferred `p.Close()` runs.  A goroutine that has ended
does nothing. -/
def keepaliveStep (k : KeepaliveTask) (env : WriteEnv) : KeepaliveTask :=
  match k.exit with
  | some _ => k
  | none =>
    if k.peer.isClose then
      { k with peer := Close k.peer, exit := some .closedFlag }
    else
      match pingRound k.peer env with
      | (.sleep, p) => { peer := p, slept := k.slept + pingInterval, exit := none }
      | (.deadlineFailed, p) =>
          { peer := Close p, slept := k.slept, exit := some .deadlineFailed }
      | (.writeFailed, p) => { peer := Close p, slept := k.slept, exit := some .writeFailed }
      | (.limitExceeded, p) =>
          { peer := Close p, slept := k.slept, exit := some .limitExceeded }

/-- The goroutine as `NewTCPPeer` starts it. -/
def startKeepalive (p : TCPPeer) : KeepaliveTask :=
  { peer := p, slept := 0, exit := none }

/-- The goroutine run for one turn per element of `envs`. -/
def keepaliveRun (k : KeepaliveTask) (envs : List WriteEnv) : KeepaliveTask :=
  envs.foldl keepaliveStep k

/-- The store `atomic.StoreUint64(&p.pingCount, 0)` of `ReadPacket`, done each
time a type code has been read. -/
def storePingCountZero (p : TCPPeer) : TCPPeer := { p with pingCount := 0 }

/-- What happens to a peer, one event at a time: a turn of the keepalive
goroutine, or the receive loop reading a type code. -/
inductive Event where
  | tick (env : WriteEnv)
  | recv
  deriving DecidableEq, Repr

/-- Whether the event is a turn of the keepalive goroutine. -/
def Event.isTick : Event → Bool
  | .tick _ => true
  | .recv => false

/-- One event applied to the goroutine and its peer. -/
def applyEvent (k : KeepaliveTask) : Event → KeepaliveTask
  | .tick env => keepaliveStep k env
  | .recv => { k with peer := storePingCountZero k.peer }

/-- A sequence of events applied in order. -/
def runEvents (k : KeepaliveTask) (evs : List Event) : KeepaliveTask :=
  evs.foldl applyEvent k

/-- A receive event stands between any two consecutive ticks. -/
def recvBetweenTicks : List Event → Bool
  | [] => true
  | [_] => true
  | e1 :: e2 :: rest => !(e1.isTick && e2.isTick) && recvBetweenTicks (e2 :: rest)

/-! ## Stepping lemmas for `ReadPacket` -/


theorem ReadUint16_cons (c : Conn) (b0 b1 : Byte) (rest : List Byte) (h : c.input = b0 :: b1 :: rest) :
    ReadUint16 c = (some (b0.val + 256 * b1.val), { c with input := rest }) := by
  simp [ReadUint16, FillBytes, h]

theorem ReadUint16_short (c : Conn) (h : c.input.length < 2) :
    ReadUint16 c = (none, { c with input := [] }) := by
  have : ¬ (2 ≤ c.input.length) := by omega
  simp [ReadUint16, FillBytes, this]

theorem ReadUint32_cons (c : Conn) (l0 l1 l2 l3 : Byte) (rest : List Byte)
    (h : c.input = l0 :: l1 :: l2 :: l3 :: rest) :
    ReadUint32 c = (some (l0.val + 256 * l1.val + 65536 * l2.val + 16777216 * l3.val),
      { c with input := rest }) := by
  simp [ReadUint32, FillBytes, h]

theorem ReadUint32_short (c : Conn) (h : c.input.length < 4) :
    ReadUint32 c = (none, { c with input := [] }) := by
  have : ¬ (4 ≤ c.input.length) := by omega
  simp [ReadUint32, FillBytes, this]

theorem ReadPacket_short (p : TCPPeer) (h : p.conn.input.length < 2) :
    ReadPacket p = (.err, { p with conn := { p.conn with input := [] } }) := by
  rw [ReadPacket]
  split
  · rename_i c1 heq
    rw [ReadUint16_short _ h] at heq
    simp at heq
    simp [heq]
  · rename_i t c1 heq
    rw [ReadUint16_short _ h] at heq
    simp at heq

theorem ReadPacket_ping (p : TCPPeer) (b0 b1 : Byte) (rest : List Byte)
    (h : p.conn.input = b0 :: b1 :: rest) (ht : b0.val + 256 * b1.val = p.pingType) :
    ReadPacket p
      = ReadPacket { p with conn := { p.conn with input := rest }, pingCount := 0 } := by
  rw [ReadPacket]
  split
  · rename_i c1 heq
    rw [ReadUint16_cons _ _ _ _ h] at heq
    simp at heq
  · rename_i t c1 heq
    rw [ReadUint16_cons _ _ _ _ h] at heq
    simp only [Prod.mk.injEq, Option.some.injEq] at heq
    obtain ⟨rfl, rfl⟩ := heq
    simp [ht]

theorem ReadPacket_noLen (p : TCPPeer) (b0 b1 : Byte) (rest : List Byte)
    (h : p.conn.input = b0 :: b1 :: rest) (ht : b0.val + 256 * b1.val ≠ p.pingType)
    (hlen : rest.length < 4) :
    ReadPacket p
      = (.err, { p with conn := { p.conn with input := [] }, pingCount := 0 }) := by
  rw [ReadPacket]
  split
  · rename_i c1 heq
    rw [ReadUint16_cons _ _ _ _ h] at heq
    simp at heq
  · rename_i t c1 heq
    rw [ReadUint16_cons _ _ _ _ h] at heq
    simp only [Prod.mk.injEq, Option.some.injEq] at heq
    obtain ⟨rfl, rfl⟩ := heq
    simp only [ht, if_false]
    rw [ReadUint32_short _ (by simpa using hlen)]


theorem Uint16ToBytes_val (b0 b1 : Byte) : Uint16ToBytes (b0.val + 256 * b1.val) = [b0, b1] := by
  have h0 : (Fin.ofNat (b0.val + 256 * b1.val) : Byte) = b0 := by
    apply Fin.ext; simp only [Fin.ofNat, Fin.val_mk]; omega
  have h1 : (Fin.ofNat ((b0.val + 256 * b1.val) / 256) : Byte) = b1 := by
    apply Fin.ext; simp only [Fin.ofNat, Fin.val_mk]; omega
  simp only [Uint16ToBytes, h0, h1]

theorem Uint32ToBytes_val (l0 l1 l2 l3 : Byte) :
    Uint32ToBytes (l0.val + 256 * l1.val + 65536 * l2.val + 16777216 * l3.val)
      = [l0, l1, l2, l3] := by
  have h0 : (Fin.ofNat (l0.val + 256 * l1.val + 65536 * l2.val + 16777216 * l3.val) : Byte)
      = l0 := by
    apply Fin.ext; simp only [Fin.ofNat, Fin.val_mk]; omega
  have h1 : (Fin.ofNat ((l0.val + 256 * l1.val + 65536 * l2.val + 16777216 * l3.val) / 256)
      : Byte) = l1 := by
    apply Fin.ext; simp only [Fin.ofNat, Fin.val_mk]; omega
  have h2 : (Fin.ofNat ((l0.val + 256 * l1.val + 65536 * l2.val + 16777216 * l3.val) / 65536)
      : Byte) = l2 := by
    apply Fin.ext; simp only [Fin.ofNat, Fin.val_mk]; omega
  have h3 : (Fin.ofNat ((l0.val + 256 * l1.val + 65536 * l2.val + 16777216 * l3.val) / 16777216)
      : Byte) = l3 := by
    apply Fin.ext; simp only [Fin.ofNat, Fin.val_mk]; omega
  simp only [Uint32ToBytes, h0, h1, h2, h3]

theorem ReadPacket_header (p : TCPPeer) (b0 b1 l0 l1 l2 l3 : Byte) (rest : List Byte)
    (h : p.conn.input = b0 :: b1 :: l0 :: l1 :: l2 :: l3 :: rest)
    (ht : b0.val + 256 * b1.val ≠ p.pingType) :
    ReadPacket p =
      (let t := b0.val + 256 * b1.val
       let Len := l0.val + 256 * l1.val + 65536 * l2.val + 16777216 * l3.val
       let c2 : Conn := { p.conn with input := rest }
       let p2 : TCPPeer := { p with conn := c2, pingCount := 0 }
       let bs := makeBytes ((6 + Len) % 2 ^ 32)
       match PutUint16 bs t with
       | none => (.panic, p2)
       | some bs1 =>
         match sliceFrom bs1 2 with
         | none => (.panic, p2)
         | some (pre2, tail2) =>
           match PutUint32 tail2 Len with
           | none => (.panic, p2)
           | some tail2' =>
             let bs2 := pre2 ++ tail2'
             match sliceFrom bs2 6 with
             | none => (.panic, p2)
             | some (pre6, tail6) =>
               match FillBytes c2 tail6.length with
               | (none, c3) => (.err, { p2 with conn := c3 })
               | (some payload, c3) => (.ok (pre6 ++ payload), { p2 with conn := c3 })) := by
  rw [ReadPacket]
  split
  · rename_i c1 heq
    rw [ReadUint16_cons _ _ _ _ h] at heq
    simp at heq
  · rename_i t c1 heq
    rw [ReadUint16_cons _ _ _ _ h] at heq
    simp only [Prod.mk.injEq, Option.some.injEq] at heq
    obtain ⟨rfl, rfl⟩ := heq
    simp only [ht, if_false]
    rw [ReadUint32_cons _ l0 l1 l2 l3 rest rfl]

theorem ReadPacket_overflow (p : TCPPeer) (b0 b1 l0 l1 l2 l3 : Byte) (rest : List Byte)
    (h : p.conn.input = b0 :: b1 :: l0 :: l1 :: l2 :: l3 :: rest)
    (ht : b0.val + 256 * b1.val ≠ p.pingType)
    (hbig : 2 ^ 32 ≤ 6 + (l0.val + 256 * l1.val + 65536 * l2.val + 16777216 * l3.val)) :
    ReadPacket p
      = (.panic, { p with conn := { p.conn with input := rest }, pingCount := 0 }) := by
  rw [ReadPacket_header p b0 b1 l0 l1 l2 l3 rest h ht]
  obtain ⟨s, hs, hs6⟩ : ∃ s, (6 + (l0.val + 256 * l1.val + 65536 * l2.val + 16777216 * l3.val))
      % 2 ^ 32 = s ∧ s < 6 := ⟨_, rfl, by omega⟩
  simp only [hs]
  interval_cases s <;>
    simp [makeBytes, PutUint16, PutUint32, sliceFrom, Uint16ToBytes, List.replicate]

theorem PutUint16_makeBytes (n : Nat) (b0 b1 : Byte) (h : 2 ≤ n) :
    PutUint16 (makeBytes n) (b0.val + 256 * b1.val) = some (b0 :: b1 :: makeBytes (n - 2)) := by
  have : ¬ n < 2 := by omega
  simp [PutUint16, makeBytes, Uint16ToBytes_val, this]

theorem PutUint32_makeBytes (n : Nat) (l0 l1 l2 l3 : Byte) (h : 4 ≤ n) :
    PutUint32 (makeBytes n) (l0.val + 256 * l1.val + 65536 * l2.val + 16777216 * l3.val)
      = some (l0 :: l1 :: l2 :: l3 :: makeBytes (n - 4)) := by
  have : ¬ n < 4 := by omega
  simp [PutUint32, makeBytes, Uint32ToBytes_val, this]

theorem sliceFrom_two (a b : Byte) (l : List Byte) :
    sliceFrom (a :: b :: l) 2 = some ([a, b], l) := by
  simp [sliceFrom]

theorem sliceFrom_six (a b c d e f : Byte) (l : List Byte) :
    sliceFrom (a :: b :: c :: d :: e :: f :: l) 6 = some ([a, b, c, d, e, f], l) := by
  simp [sliceFrom]

theorem makeBytes_length (n : Nat) : (makeBytes n).length = n := by
  simp [makeBytes]

theorem ReadPacket_sized (p : TCPPeer) (b0 b1 l0 l1 l2 l3 : Byte) (rest : List Byte)
    (h : p.conn.input = b0 :: b1 :: l0 :: l1 :: l2 :: l3 :: rest)
    (ht : b0.val + 256 * b1.val ≠ p.pingType)
    (hsmall : 6 + (l0.val + 256 * l1.val + 65536 * l2.val + 16777216 * l3.val) < 2 ^ 32) :
    ReadPacket p =
      (match FillBytes { p.conn with input := rest }
          (l0.val + 256 * l1.val + 65536 * l2.val + 16777216 * l3.val) with
       | (none, c3) => (.err, { p with conn := c3, pingCount := 0 })
       | (some payload, c3) =>
           (.ok ([b0, b1, l0, l1, l2, l3] ++ payload), { p with conn := c3, pingCount := 0 })) := by
  rw [ReadPacket_header p b0 b1 l0 l1 l2 l3 rest h ht]
  simp only [Nat.mod_eq_of_lt hsmall]
  rw [PutUint16_makeBytes _ _ _ (by omega)]
  simp only [sliceFrom_two]
  rw [PutUint32_makeBytes _ _ _ _ _ (by omega)]
  simp only [List.cons_append, List.nil_append, sliceFrom_six, makeBytes_length]
  have e : 6 + (l0.val + 256 * l1.val + 65536 * l2.val + 16777216 * l3.val) - 2 - 4
      = l0.val + 256 * l1.val + 65536 * l2.val + 16777216 * l3.val := by omega
  rw [e]

theorem ReadPacket_frame (p : TCPPeer) (b0 b1 l0 l1 l2 l3 : Byte) (rest : List Byte)
    (h : p.conn.input = b0 :: b1 :: l0 :: l1 :: l2 :: l3 :: rest)
    (ht : b0.val + 256 * b1.val ≠ p.pingType)
    (hsmall : 6 + (l0.val + 256 * l1.val + 65536 * l2.val + 16777216 * l3.val) < 2 ^ 32)
    (hav : l0.val + 256 * l1.val + 65536 * l2.val + 16777216 * l3.val ≤ rest.length) :
    ReadPacket p
      = (.ok ([b0, b1, l0, l1, l2, l3]
            ++ rest.take (l0.val + 256 * l1.val + 65536 * l2.val + 16777216 * l3.val)),
         { p with
           conn := { p.conn with
             input := rest.drop (l0.val + 256 * l1.val + 65536 * l2.val + 16777216 * l3.val) },
           pingCount := 0 }) := by
  rw [ReadPacket_sized p b0 b1 l0 l1 l2 l3 rest h ht hsmall]
  simp [FillBytes, hav]

theorem ReadPacket_truncated (p : TCPPeer) (b0 b1 l0 l1 l2 l3 : Byte) (rest : List Byte)
    (h : p.conn.input = b0 :: b1 :: l0 :: l1 :: l2 :: l3 :: rest)
    (ht : b0.val + 256 * b1.val ≠ p.pingType)
    (hsmall : 6 + (l0.val + 256 * l1.val + 65536 * l2.val + 16777216 * l3.val) < 2 ^ 32)
    (hav : rest.length < l0.val + 256 * l1.val + 65536 * l2.val + 16777216 * l3.val) :
    ReadPacket p
      = (.err, { p with conn := { p.conn with input := [] }, pingCount := 0 }) := by
  rw [ReadPacket_sized p b0 b1 l0 l1 l2 l3 rest h ht hsmall]
  have : ¬ (l0.val + 256 * l1.val + 65536 * l2.val + 16777216 * l3.val ≤ rest.length) := by
    omega
  simp [FillBytes, this]


theorem Uint16ToBytes_decode (t : Nat) (h : t < 65536) :
    ∃ b0 b1 : Byte, Uint16ToBytes t = [b0, b1] ∧ b0.val + 256 * b1.val = t := by
  refine ⟨Fin.ofNat t, Fin.ofNat (t / 256), rfl, ?_⟩
  simp only [Fin.ofNat, Fin.val_mk]
  omega

theorem Uint32ToBytes_decode (n : Nat) (h : n < 2 ^ 32) :
    ∃ l0 l1 l2 l3 : Byte, Uint32ToBytes n = [l0, l1, l2, l3] ∧
      l0.val + 256 * l1.val + 65536 * l2.val + 16777216 * l3.val = n := by
  refine ⟨Fin.ofNat n, Fin.ofNat (n / 256), Fin.ofNat (n / 65536), Fin.ofNat (n / 16777216),
    rfl, ?_⟩
  simp only [Fin.ofNat, Fin.val_mk]
  omega

/-- The round trip of a packet whose frame size `6+n` fits 32 bits. -/
theorem ReadPacket_encodePacket (p : TCPPeer) (t : Nat) (payload rest : List Byte)
    (ht : t < 65536) (hne : t ≠ p.pingType) (hn : 6 + payload.length < 2 ^ 32)
    (h : p.conn.input = encodePacket t payload ++ rest) :
    ReadPacket p
      = (.ok (encodePacket t payload),
         { p with conn := { p.conn with input := rest }, pingCount := 0 }) := by
  obtain ⟨b0, b1, hb, hbv⟩ := Uint16ToBytes_decode t ht
  obtain ⟨l0, l1, l2, l3, hl, hlv⟩ := Uint32ToBytes_decode payload.length (by omega)
  have h1 : p.conn.input = b0 :: b1 :: l0 :: l1 :: l2 :: l3 :: (payload ++ rest) := by
    rw [h, encodePacket, hb, hl]; simp
  rw [ReadPacket_frame p b0 b1 l0 l1 l2 l3 (payload ++ rest) h1 (by omega) (by omega)
    (by simp; omega)]
  rw [hlv, encodePacket, hb, hl]
  simp

/-- A packet whose frame size `6+n` does not fit 32 bits ends `ReadPacket` in a
panic, right behind the header. -/
theorem ReadPacket_encodePacket_overflow (p : TCPPeer) (t : Nat) (payload rest : List Byte)
    (ht : t < 65536) (hne : t ≠ p.pingType) (hn : payload.length < 2 ^ 32)
    (hbig : 2 ^ 32 ≤ 6 + payload.length)
    (h : p.conn.input = encodePacket t payload ++ rest) :
    ReadPacket p
      = (.panic, { p with conn := { p.conn with input := payload ++ rest }, pingCount := 0 }) := by
  obtain ⟨b0, b1, hb, hbv⟩ := Uint16ToBytes_decode t ht
  obtain ⟨l0, l1, l2, l3, hl, hlv⟩ := Uint32ToBytes_decode payload.length hn
  have h1 : p.conn.input = b0 :: b1 :: l0 :: l1 :: l2 :: l3 :: (payload ++ rest) := by
    rw [h, encodePacket, hb, hl]; simp
  rw [ReadPacket_overflow p b0 b1 l0 l1 l2 l3 (payload ++ rest) h1 (by omega) (by omega)]

/-- Leading keepalives are read and dropped one by one. -/
theorem ReadPacket_pings (k : Nat) (p : TCPPeer) (s : List Byte) (hp : p.pingType < 65536)
    (h : p.conn.input = pings p.pingType (k + 1) ++ s) :
    ReadPacket p = ReadPacket { p with conn := { p.conn with input := s }, pingCount := 0 } := by
  induction k generalizing p with
  | zero =>
    obtain ⟨b0, b1, hb, hbv⟩ := Uint16ToBytes_decode p.pingType hp
    have h1 : p.conn.input = b0 :: b1 :: s := by
      rw [h]; simp [pings, pingBytes, hb]
    rw [ReadPacket_ping p b0 b1 s h1 hbv]
  | succ k ih =>
    obtain ⟨b0, b1, hb, hbv⟩ := Uint16ToBytes_decode p.pingType hp
    have h1 : p.conn.input = b0 :: b1 :: (pings p.pingType (k + 1) ++ s) := by
      rw [h]
      show pingBytes p.pingType ++ pings p.pingType (k + 1) ++ s = _
      simp [pingBytes, hb]
    rw [ReadPacket_ping p b0 b1 _ h1 hbv]
    exact ih _ hp rfl

/-! ## Induction along `ReadPacket` -/


/-- Case analysis and induction along the run of `ReadPacket`: a property that
holds for each of the five ways the loop ends, and is carried over a keepalive,
holds for every call. -/
theorem ReadPacket_cases (motive : TCPPeer → ReadResult × TCPPeer → Prop)
    (h_short : ∀ p : TCPPeer, p.conn.input.length < 2 → motive p (.err, drained p))
    (h_ping : ∀ (p : TCPPeer) (b0 b1 : Byte) (rest : List Byte),
      p.conn.input = b0 :: b1 :: rest → b0.val + 256 * b1.val = p.pingType →
      motive (afterType p rest) (ReadPacket (afterType p rest)) →
      motive p (ReadPacket (afterType p rest)))
    (h_noLen : ∀ (p : TCPPeer) (b0 b1 : Byte) (rest : List Byte),
      p.conn.input = b0 :: b1 :: rest → b0.val + 256 * b1.val ≠ p.pingType →
      rest.length < 4 → motive p (.err, afterType p []))
    (h_overflow : ∀ (p : TCPPeer) (b0 b1 l0 l1 l2 l3 : Byte) (rest : List Byte),
      p.conn.input = b0 :: b1 :: l0 :: l1 :: l2 :: l3 :: rest →
      b0.val + 256 * b1.val ≠ p.pingType →
      2 ^ 32 ≤ 6 + (l0.val + 256 * l1.val + 65536 * l2.val + 16777216 * l3.val) →
      motive p (.panic, afterType p rest))
    (h_truncated : ∀ (p : TCPPeer) (b0 b1 l0 l1 l2 l3 : Byte) (rest : List Byte),
      p.conn.input = b0 :: b1 :: l0 :: l1 :: l2 :: l3 :: rest →
      b0.val + 256 * b1.val ≠ p.pingType →
      6 + (l0.val + 256 * l1.val + 65536 * l2.val + 16777216 * l3.val) < 2 ^ 32 →
      rest.length < l0.val + 256 * l1.val + 65536 * l2.val + 16777216 * l3.val →
      motive p (.err, afterType p []))
    (h_frame : ∀ (p : TCPPeer) (b0 b1 l0 l1 l2 l3 : Byte) (rest : List Byte),
      p.conn.input = b0 :: b1 :: l0 :: l1 :: l2 :: l3 :: rest →
      b0.val + 256 * b1.val ≠ p.pingType →
      6 + (l0.val + 256 * l1.val + 65536 * l2.val + 16777216 * l3.val) < 2 ^ 32 →
      l0.val + 256 * l1.val + 65536 * l2.val + 16777216 * l3.val ≤ rest.length →
      motive p
        (.ok ([b0, b1, l0, l1, l2, l3]
            ++ rest.take (l0.val + 256 * l1.val + 65536 * l2.val + 16777216 * l3.val)),
          afterType p
            (rest.drop (l0.val + 256 * l1.val + 65536 * l2.val + 16777216 * l3.val))))
    (p : TCPPeer) : motive p (ReadPacket p) := by
  obtain ⟨n, hn⟩ : ∃ n, p.conn.input.length = n := ⟨_, rfl⟩
  induction n using Nat.strong_induction_on generalizing p with
  | _ n ih =>
    match hin : p.conn.input with
    | [] =>
      have hlt : p.conn.input.length < 2 := by rw [hin]; simp
      rw [ReadPacket_short p hlt]; exact h_short p hlt
    | [_] =>
      have hlt : p.conn.input.length < 2 := by rw [hin]; simp
      rw [ReadPacket_short p hlt]; exact h_short p hlt
    | b0 :: b1 :: rest =>
      by_cases ht : b0.val + 256 * b1.val = p.pingType
      · rw [ReadPacket_ping p b0 b1 rest hin ht]
        refine h_ping p b0 b1 rest hin ht ?_
        exact ih rest.length (by rw [← hn, hin]; simp; omega) (afterType p rest) rfl
      · match hrest : rest with
        | [] | [_] | [_, _] | [_, _, _] =>
          rw [ReadPacket_noLen p b0 b1 _ hin ht (by simp)]
          exact h_noLen p b0 b1 _ hin ht (by simp)
        | l0 :: l1 :: l2 :: l3 :: rest' =>
          by_cases hbig : 2 ^ 32 ≤ 6 + (l0.val + 256 * l1.val + 65536 * l2.val + 16777216 * l3.val)
          · rw [ReadPacket_overflow p b0 b1 l0 l1 l2 l3 rest' hin ht hbig]
            exact h_overflow p b0 b1 l0 l1 l2 l3 rest' hin ht hbig
          · by_cases hav : l0.val + 256 * l1.val + 65536 * l2.val + 16777216 * l3.val
                ≤ rest'.length
            · rw [ReadPacket_frame p b0 b1 l0 l1 l2 l3 rest' hin ht (by omega) hav]
              exact h_frame p b0 b1 l0 l1 l2 l3 rest' hin ht (by omega) hav
            · rw [ReadPacket_truncated p b0 b1 l0 l1 l2 l3 rest' hin ht (by omega) (by omega)]
              exact h_truncated p b0 b1 l0 l1 l2 l3 rest' hin ht (by omega) (by omega)

/-! ## `ReadPacket`: what it returns -/

theorem skipPings_ping (pt : Nat) (b0 b1 : Byte) (rest : List Byte)
    (h : b0.val + 256 * b1.val = pt) : skipPings pt (b0 :: b1 :: rest) = skipPings pt rest := by
  simp [skipPings, h]

theorem skipPings_other (pt : Nat) (b0 b1 : Byte) (rest : List Byte)
    (h : b0.val + 256 * b1.val ≠ pt) : skipPings pt (b0 :: b1 :: rest) = b0 :: b1 :: rest := by
  simp [skipPings, h]

theorem skipPings_short (pt : Nat) (l : List Byte) (h : l.length < 2) : skipPings pt l = l := by
  match l, h with
  | [], _ => rfl
  | [_], _ => rfl

/-- The result of `ReadPacket` is the one `decodeOutcome` tells from the
stream. -/
theorem ReadPacket_eq_decodeOutcome (p : TCPPeer) :
    (ReadPacket p).1 = decodeOutcome p.pingType p.conn.input := by
  refine ReadPacket_cases (fun p r => r.1 = decodeOutcome p.pingType p.conn.input)
    ?_ ?_ ?_ ?_ ?_ ?_ p
  · intro p h
    match hin : p.conn.input, h with
    | [], _ => simp [decodeOutcome, skipPings]
    | [_], _ => simp [decodeOutcome, skipPings]
  · intro p b0 b1 rest hin ht ih
    simp only [decodeOutcome, hin, skipPings_ping _ _ _ _ ht]
    exact ih
  · intro p b0 b1 rest hin ht hlen
    simp only [decodeOutcome, hin, skipPings_other _ _ _ _ ht]
    match rest, hlen with
    | [], _ | [_], _ | [_, _], _ | [_, _, _], _ => rfl
  · intro p b0 b1 l0 l1 l2 l3 rest hin ht hbig
    simp only [decodeOutcome, hin, skipPings_other _ _ _ _ ht, hbig, if_true]
  · intro p b0 b1 l0 l1 l2 l3 rest hin ht hsmall hav
    have h1 : ¬ (2 ^ 32 ≤ 6 + (l0.val + 256 * l1.val + 65536 * l2.val + 16777216 * l3.val)) := by
      omega
    have h2 : ¬ (l0.val + 256 * l1.val + 65536 * l2.val + 16777216 * l3.val ≤ rest.length) := by
      omega
    simp only [decodeOutcome, hin, skipPings_other _ _ _ _ ht, h1, h2, if_false]
  · intro p b0 b1 l0 l1 l2 l3 rest hin ht hsmall hav
    have h1 : ¬ (2 ^ 32 ≤ 6 + (l0.val + 256 * l1.val + 65536 * l2.val + 16777216 * l3.val)) := by
      omega
    simp only [decodeOutcome, hin, skipPings_other _ _ _ _ ht, h1, hav, if_false, if_true]

/-- The liveness counter after `ReadPacket`: unchanged when not even one type
code could be read, 0 otherwise. -/
theorem ReadPacket_pingCount_eq (p : TCPPeer) :
    (ReadPacket p).2.pingCount = if p.conn.input.length < 2 then p.pingCount else 0 := by
  refine ReadPacket_cases
    (fun p r => r.2.pingCount = if p.conn.input.length < 2 then p.pingCount else 0)
    ?_ ?_ ?_ ?_ ?_ ?_ p
  · intro p h
    simp [drained, h]
  · intro p b0 b1 rest hin ht ih
    simp only [hin] at ih ⊢
    rw [ih]
    have : ¬ (rest.length + 1 + 1 < 2) := by omega
    simp [afterType, this]
  · intro p b0 b1 rest hin _ _
    have : ¬ (p.conn.input.length < 2) := by rw [hin]; simp
    rw [if_neg this]; rfl
  · intro p b0 b1 l0 l1 l2 l3 rest hin _ _
    have : ¬ (p.conn.input.length < 2) := by rw [hin]; simp
    rw [if_neg this]; rfl
  · intro p b0 b1 l0 l1 l2 l3 rest hin _ _ _
    have : ¬ (p.conn.input.length < 2) := by rw [hin]; simp
    rw [if_neg this]; rfl
  · intro p b0 b1 l0 l1 l2 l3 rest hin _ _ _
    have : ¬ (p.conn.input.length < 2) := by rw [hin]; simp
    rw [if_neg this]; rfl

/-- A returned frame starts with a type code that is not the ping type, and
has at least six bytes. -/
theorem ReadPacket_ok_type (p : TCPPeer) (bs : List Byte) (h : (ReadPacket p).1 = .ok bs) :
    ∃ t n payload, decodeFrame bs = some (t, n, payload) ∧ t ≠ p.pingType ∧
      n = payload.length ∧ 6 + n < 2 ^ 32 := by
  revert h
  refine ReadPacket_cases
    (fun p r => r.1 = .ok bs → ∃ t n payload, decodeFrame bs = some (t, n, payload) ∧
      t ≠ p.pingType ∧ n = payload.length ∧ 6 + n < 2 ^ 32) ?_ ?_ ?_ ?_ ?_ ?_ p
  · intro p _ h; simp at h
  · intro p b0 b1 rest hin ht ih h
    exact ih h
  · intro p b0 b1 rest hin ht hlen h; simp at h
  · intro p b0 b1 l0 l1 l2 l3 rest hin ht hbig h; simp at h
  · intro p b0 b1 l0 l1 l2 l3 rest hin ht hsmall hav h; simp at h
  · intro p b0 b1 l0 l1 l2 l3 rest hin ht hsmall hav h
    simp only [ReadResult.ok.injEq] at h
    subst h
    refine ⟨_, _, _, rfl, ht, ?_, hsmall⟩
    simp [hav]

/-! ## `ReadPacket`: the largest lengths, and the liveness counter -/

/-- C1 (packet round trip), the code at the largest payload lengths: a packet
with type code 1 (the ping type being 7) and a payload of `2^32 - 6` bytes, a
length that fits the 4-byte field, is not returned by `ReadPacket`: the buffer
size `6+Len` wraps to 0 and the call ends in a panic. -/
theorem ReadPacket_roundtrip_fails_on_longest_payload :
    (ReadPacket (peerOn 7 (encodePacket 1 (List.replicate (2 ^ 32 - 6) 0)))).1
      = ReadResult.panic := by
  have hlen : (List.replicate (2 ^ 32 - 6) (0 : Byte)).length = 2 ^ 32 - 6 :=
    List.length_replicate _ _
  have h := ReadPacket_encodePacket_overflow
    (peerOn 7 (encodePacket 1 (List.replicate (2 ^ 32 - 6) 0))) 1
    (List.replicate (2 ^ 32 - 6) 0) [] (by norm_num)
    (by show 1 ≠ 7 % 2 ^ 16; norm_num) (by rw [hlen]; norm_num) (by rw [hlen]; norm_num)
    (by rw [List.append_nil]; rfl)
  rw [h]

/-- C2 (keepalives are swallowed), the code behind one keepalive: the stream of
one keepalive type code (7) and a well-formed frame with type code 1 and a
payload of `2^32 - 1` bytes is not answered with that frame: `ReadPacket`
drops the keepalive and then ends in a panic. -/
theorem ReadPacket_keepalive_then_longest_frame_panics :
    (ReadPacket (peerOn 7 (pings 7 1 ++ encodePacket 1 (List.replicate (2 ^ 32 - 1) 0)))).1
      = ReadResult.panic := by
  have hlen : (List.replicate (2 ^ 32 - 1) (0 : Byte)).length = 2 ^ 32 - 1 :=
    List.length_replicate _ _
  have h1 := ReadPacket_pings 0
    (peerOn 7 (pings 7 1 ++ encodePacket 1 (List.replicate (2 ^ 32 - 1) 0)))
    (encodePacket 1 (List.replicate (2 ^ 32 - 1) 0))
    (by show 7 % 2 ^ 16 < 65536; norm_num) rfl
  rw [h1]
  have h := ReadPacket_encodePacket_overflow
    { peerOn 7 (pings 7 1 ++ encodePacket 1 (List.replicate (2 ^ 32 - 1) 0)) with
      conn := { input := encodePacket 1 (List.replicate (2 ^ 32 - 1) 0), written := [],
                closeCalls := 0 }
      pingCount := 0 } 1
    (List.replicate (2 ^ 32 - 1) 0) [] (by norm_num)
    (by show 1 ≠ 7 % 2 ^ 16; norm_num) (by rw [hlen]; norm_num) (by rw [hlen]; norm_num)
    (by rw [List.append_nil])
  exact congrArg Prod.fst h

/-- C3 (a read failure ends decoding with an error), the code on a stream that
ends right behind a header: six bytes, type code 1 and length `0xFFFFFFFA`,
then the end of the stream.  `ReadPacket` does not return an error: it ends
in a panic before it reads any payload. -/
theorem ReadPacket_truncated_stream_panics :
    ReadPacket (peerOn 7 [1, 0, 0xFA, 0xFF, 0xFF, 0xFF])
      = (ReadResult.panic, afterType (peerOn 7 [1, 0, 0xFA, 0xFF, 0xFF, 0xFF]) []) := by
  exact ReadPacket_overflow (peerOn 7 [1, 0, 0xFA, 0xFF, 0xFF, 0xFF]) 1 0 0xFA 0xFF 0xFF 0xFF []
    rfl (by decide) (by decide)

/-- C10 (safe for every header value), the code on the length `0xFFFFFFFF`:
the buffer size `6+Len` wraps modulo `2^32` to 5, the length cannot be stored
in `bs[2:]`, and `ReadPacket` ends in a panic with the three payload bytes
unread. -/
theorem ReadPacket_length_overflow_panics :
    (6 + 0xFFFFFFFF) % 2 ^ 32 = 5 ∧
    PutUint32 ((makeBytes 5).drop 2) 0xFFFFFFFF = none ∧
    sliceFrom (makeBytes 5) 6 = none ∧
    ReadPacket (peerOn 7 [1, 0, 0xFF, 0xFF, 0xFF, 0xFF, 9, 9, 9])
      = (ReadResult.panic,
         afterType (peerOn 7 [1, 0, 0xFF, 0xFF, 0xFF, 0xFF, 9, 9, 9]) [9, 9, 9]) := by
  refine ⟨by norm_num, by decide, by decide, ?_⟩
  exact ReadPacket_overflow (peerOn 7 [1, 0, 0xFF, 0xFF, 0xFF, 0xFF, 9, 9, 9])
    1 0 0xFF 0xFF 0xFF 0xFF [9, 9, 9] rfl (by decide) (by decide)

/-- C9: `ReadPacket` stores 0 in `pingCount` each time it has read a type code,
whatever the type.  So `pingCount` is 0 after every call that could read its
first type code (two bytes were there), in particular after every call that
returns a frame and after every call that consumed a keepalive; a call whose
very first read fails returns the error and leaves `pingCount` as it was. -/
theorem ReadPacket_resets_pingCount (p : TCPPeer) :
    (2 ≤ p.conn.input.length → (ReadPacket p).2.pingCount = 0) ∧
    (∀ bs, (ReadPacket p).1 = .ok bs → (ReadPacket p).2.pingCount = 0) ∧
    (∀ k s, p.pingType < 65536 → p.conn.input = pings p.pingType (k + 1) ++ s →
      (ReadPacket p).2.pingCount = 0) ∧
    (p.conn.input.length < 2 →
      (ReadPacket p).1 = .err ∧ (ReadPacket p).2.pingCount = p.pingCount) := by
  have key := ReadPacket_pingCount_eq p
  refine ⟨?_, ?_, ?_, ?_⟩
  · intro h
    rw [key, if_neg (by omega)]
  · intro bs h
    by_cases hl : p.conn.input.length < 2
    · rw [ReadPacket_short p hl] at h
      simp at h
    · rw [key, if_neg hl]
  · intro k s hp h
    have hl : ¬ (p.conn.input.length < 2) := by
      obtain ⟨b0, b1, hb, -⟩ := Uint16ToBytes_decode p.pingType hp
      rw [h]
      simp [pings, pingBytes, hb]
    rw [key, if_neg hl]
  · intro h
    rw [ReadPacket_short p h]
    exact ⟨rfl, rfl⟩

/-- C9 at four streams: a type code that is no keepalive and a cut length, a
whole frame, one keepalive, and a single byte; the counter was 2 before. -/
theorem ReadPacket_resets_pingCount_witness :
    (2 ≤ ({ peerOn 7 [1, 0, 3] with pingCount := 2 } : TCPPeer).conn.input.length ∧
      (ReadPacket { peerOn 7 [1, 0, 3] with pingCount := 2 }).2.pingCount = 0) ∧
    ((ReadPacket { peerOn 7 [1, 0, 1, 0, 0, 0, 5] with pingCount := 2 }).1
        = .ok [1, 0, 1, 0, 0, 0, 5] ∧
      (ReadPacket { peerOn 7 [1, 0, 1, 0, 0, 0, 5] with pingCount := 2 }).2.pingCount = 0) ∧
    (({ peerOn 7 [7, 0] with pingCount := 2 } : TCPPeer).conn.input = pings 7 1 ++ [] ∧
      (ReadPacket { peerOn 7 [7, 0] with pingCount := 2 }).2.pingCount = 0) ∧
    (({ peerOn 7 [7] with pingCount := 2 } : TCPPeer).conn.input.length < 2 ∧
      (ReadPacket { peerOn 7 [7] with pingCount := 2 }).1 = .err ∧
      (ReadPacket { peerOn 7 [7] with pingCount := 2 }).2.pingCount = 2) := by
  have hframe : (ReadPacket { peerOn 7 [1, 0, 1, 0, 0, 0, 5] with pingCount := 2 }).1
      = .ok [1, 0, 1, 0, 0, 0, 5] := by
    rw [ReadPacket_frame { peerOn 7 [1, 0, 1, 0, 0, 0, 5] with pingCount := 2 }
      1 0 1 0 0 0 [5] rfl (by decide) (by decide) (by decide)]
    rfl
  exact ⟨⟨by decide, (ReadPacket_resets_pingCount _).1 (by decide)⟩,
    ⟨hframe, (ReadPacket_resets_pingCount _).2.1 _ hframe⟩,
    ⟨by decide, (ReadPacket_resets_pingCount _).2.2.1 0 [] (by decide) (by decide)⟩,
    ⟨by decide, (ReadPacket_resets_pingCount _).2.2.2 (by decide)⟩⟩

/-! ## `Close` and `SendPacket` -/

/-- C4: `Close` is idempotent on the closed flag.  `IsClosed` is true after one
call of `Close` and after a second one, and the second call leaves `id`,
`name`, `connectedTime`, `pingCount`, `pingType` and `isClose` as the first call
left them.  `Close` has no result, so neither call reports an error. -/
theorem Close_idempotent_on_fields (p : TCPPeer) :
    IsClosed (Close p) = true ∧ IsClosed (Close (Close p)) = true ∧
    (Close (Close p)).id = (Close p).id ∧
    (Close (Close p)).name = (Close p).name ∧
    (Close (Close p)).connectedTime = (Close p).connectedTime ∧
    (Close (Close p)).pingCount = (Close p).pingCount ∧
    (Close (Close p)).pingType = (Close p).pingType ∧
    (Close (Close p)).isClose = (Close p).isClose :=
  ⟨rfl, rfl, rfl, rfl, rfl, rfl, rfl, rfl⟩

/-- C5 as stated fails: `Close` has no guard, so a second call on a peer that
is already closed calls `conn.Close` again.  Two calls of `Close` on a new peer
make two calls of `conn.Close`, not one: the later call does release the
connection again.  And a failed `SendPacket`, the keepalive goroutine's
deferred `Close` and a caller's `Close` make three. -/
theorem Close_calls_conn_Close_again :
    IsClosed (Close (peerOn 7 [])) = true ∧
    (Close (peerOn 7 [])).conn.closeCalls = 1 ∧
    (Close (Close (peerOn 7 []))).conn.closeCalls = 2 ∧
    (Close (Close (peerOn 7 []))).conn.closeCalls ≠ (Close (peerOn 7 [])).conn.closeCalls ∧
    (Close^[2] (peerOn 7 [])).conn.closeCalls ≠ (peerOn 7 []).conn.closeCalls + 1 ∧
    (Close (keepaliveStep (startKeepalive (SendPacket (peerOn 7 []) [1, 2]
        { deadlineOk := true, writeOk := false, sent := 0 }))
        { deadlineOk := true, writeOk := true, sent := 0 }).peer).conn.closeCalls = 3 := by
  decide

/-- The calls of `conn.Close` add up over repeated calls of `Close`. -/
theorem Close_iterate_closeCalls (n : Nat) (p : TCPPeer) :
    (Close^[n] p).conn.closeCalls = p.conn.closeCalls + n := by
  induction n generalizing p with
  | zero => rfl
  | succ n ih =>
    rw [Function.iterate_succ_apply, ih]
    simp only [Close, Conn.Close]
    omega

/-- C5, amended: every call of `Close` calls `conn.Close`.  After `n` calls of
`Close` on one peer `conn.Close` has been called `n` times more than before,
and after any `n+1` calls `IsClosed` is true. -/
theorem Close_calls_conn_Close_every_time (p : TCPPeer) (n : Nat) :
    (Close^[n] p).conn.closeCalls = p.conn.closeCalls + n ∧
    IsClosed (Close^[n + 1] p) = true := by
  refine ⟨Close_iterate_closeCalls n p, ?_⟩
  rw [Function.iterate_succ_apply']
  rfl

/-- C6: a failed send closes the peer, and `SendPacket` returns nothing.  On an
open peer: when `SetWriteDeadline` fails the peer is closed and nothing has
been written; when `Write` fails the peer is closed; when both succeed `bs`
has been written exactly once and nothing else has changed, the closed flag
included.  On a closed peer `SendPacket` changes nothing at all. -/
theorem SendPacket_closes_on_failure (p : TCPPeer) (bs : List Byte) (env : WriteEnv) :
    (p.isClose = false → env.deadlineOk = false →
      IsClosed (SendPacket p bs env) = true ∧
      (SendPacket p bs env).conn.written = p.conn.written) ∧
    (p.isClose = false → env.writeOk = false → IsClosed (SendPacket p bs env) = true) ∧
    (p.isClose = false → env.deadlineOk = true → env.writeOk = true →
      SendPacket p bs env
        = { p with conn := { p.conn with written := p.conn.written ++ [bs] } } ∧
      IsClosed (SendPacket p bs env) = IsClosed p) ∧
    (p.isClose = true → SendPacket p bs env = p) := by
  refine ⟨?_, ?_, ?_, ?_⟩
  · intro hopen hd
    simp [SendPacket, hopen, Conn.SetWriteDeadline, hd, Close, IsClosed, Conn.Close]
  · intro hopen hw
    cases hd : env.deadlineOk <;>
      simp [SendPacket, hopen, Conn.SetWriteDeadline, hd, Conn.Write, hw, Close, IsClosed]
  · intro hopen hd hw
    simp [SendPacket, hopen, Conn.SetWriteDeadline, hd, Conn.Write, hw, IsClosed]
  · intro hclosed
    simp [SendPacket, hclosed]

/-- C6 at a new peer and the two bytes `[1, 2]`: a failed deadline, a failed
write, a successful send, and a send on a closed peer. -/
theorem SendPacket_closes_on_failure_witness :
    ((peerOn 7 []).isClose = false ∧
      IsClosed (SendPacket (peerOn 7 []) [1, 2]
        { deadlineOk := false, writeOk := true, sent := 0 }) = true ∧
      (SendPacket (peerOn 7 []) [1, 2]
        { deadlineOk := false, writeOk := true, sent := 0 }).conn.written = []) ∧
    IsClosed (SendPacket (peerOn 7 []) [1, 2]
        { deadlineOk := true, writeOk := false, sent := 1 }) = true ∧
    (SendPacket (peerOn 7 []) [1, 2] { deadlineOk := true, writeOk := true, sent := 0 }
        = { peerOn 7 [] with conn := { (peerOn 7 []).conn with written := [] ++ [[1, 2]] } } ∧
      IsClosed (SendPacket (peerOn 7 []) [1, 2]
        { deadlineOk := true, writeOk := true, sent := 0 }) = false) ∧
    ((Close (peerOn 7 [])).isClose = true ∧
      SendPacket (Close (peerOn 7 [])) [1, 2] { deadlineOk := true, writeOk := true, sent := 0 }
        = Close (peerOn 7 [])) :=
  ⟨⟨rfl, (SendPacket_closes_on_failure (peerOn 7 []) [1, 2]
      { deadlineOk := false, writeOk := true, sent := 0 }).1 rfl rfl⟩,
    (SendPacket_closes_on_failure (peerOn 7 []) [1, 2]
      { deadlineOk := true, writeOk := false, sent := 1 }).2.1 rfl rfl,
    (SendPacket_closes_on_failure (peerOn 7 []) [1, 2]
      { deadlineOk := true, writeOk := true, sent := 0 }).2.2.1 rfl rfl rfl,
    ⟨rfl, (SendPacket_closes_on_failure (Close (peerOn 7 [])) [1, 2]
      { deadlineOk := true, writeOk := true, sent := 0 }).2.2.2 rfl⟩⟩

/-! ## The keepalive goroutine -/

theorem keepaliveStep_exited (k : KeepaliveTask) (env : WriteEnv) (c : ExitCause)
    (h : k.exit = some c) : keepaliveStep k env = k := by
  simp [keepaliveStep, h]

theorem keepaliveRun_exited (envs : List WriteEnv) (k : KeepaliveTask) (c : ExitCause)
    (h : k.exit = some c) : keepaliveRun k envs = k := by
  induction envs with
  | nil => rfl
  | cons e rest ih =>
    show keepaliveRun (keepaliveStep k e) rest = k
    rw [keepaliveStep_exited k e c h]
    exact ih

/-- A turn of the goroutine on an open peer whose writes succeed. -/
theorem keepaliveStep_ok (k : KeepaliveTask) (env : WriteEnv) (hrun : k.exit = none)
    (hopen : k.peer.isClose = false) (hd : env.deadlineOk = true) (hw : env.writeOk = true) :
    keepaliveStep k env =
      if (k.peer.pingCount + 1) % 2 ^ 64 > pingCountLimit then
        { peer := Close { k.peer with
            conn := { k.peer.conn with
              written := k.peer.conn.written ++ [Uint16ToBytes k.peer.pingType] },
            pingCount := (k.peer.pingCount + 1) % 2 ^ 64 },
          slept := k.slept, exit := some .limitExceeded }
      else
        { peer := { k.peer with
            conn := { k.peer.conn with
              written := k.peer.conn.written ++ [Uint16ToBytes k.peer.pingType] },
            pingCount := (k.peer.pingCount + 1) % 2 ^ 64 },
          slept := k.slept + pingInterval, exit := none } := by
  unfold keepaliveStep pingRound Conn.SetWriteDeadline Conn.Write
  simp only [hrun, hopen, hd, hw, if_true, Bool.false_eq_true, if_false]
  by_cases hlim : (k.peer.pingCount + 1) % 2 ^ 64 > pingCountLimit
  · simp only [hlim, if_true]
  · simp only [hlim, if_false]

/-- The counter after one turn of the goroutine is the old one or the old one
plus 1, and the goroutine leaves by the limit only with a counter above 3. -/
theorem keepaliveStep_pingCount (k : KeepaliveTask) (env : WriteEnv)
    (hne : k.exit ≠ some .limitExceeded) :
    ((keepaliveStep k env).peer.pingCount = k.peer.pingCount ∨
      (keepaliveStep k env).peer.pingCount = (k.peer.pingCount + 1) % 2 ^ 64) ∧
    ((keepaliveStep k env).exit = some .limitExceeded →
      pingCountLimit < (k.peer.pingCount + 1) % 2 ^ 64) := by
  unfold keepaliveStep
  split
  · rename_i c hc
    refine ⟨Or.inl rfl, fun h => ?_⟩
    exact absurd h hne
  · rename_i hc
    split
    · refine ⟨Or.inl rfl, fun h => ?_⟩
      simp at h
    · unfold pingRound Conn.SetWriteDeadline Conn.Write
      cases hd : env.deadlineOk <;> cases hw : env.writeOk <;> simp [Close]
      all_goals
        split <;> rename_i hr
        all_goals
          split at hr <;> simp at hr
          all_goals
            obtain ⟨_, rfl⟩ := hr
            simp_all


theorem recvBetweenTicks_tail (e : Event) (rest : List Event)
    (h : recvBetweenTicks (e :: rest) = true) : recvBetweenTicks rest = true := by
  cases rest with
  | nil => rfl
  | cons e2 rest2 =>
    simp only [recvBetweenTicks, Bool.and_eq_true] at h
    exact h.2

theorem recvBetweenTicks_head (env : WriteEnv) (e2 : Event) (rest : List Event)
    (h : recvBetweenTicks (Event.tick env :: e2 :: rest) = true) : e2.isTick = false := by
  simp only [recvBetweenTicks, Event.isTick, Bool.true_and, Bool.and_eq_true,
    Bool.not_eq_true'] at h
  exact h.1

/-- The invariant of a run with a receive between any two ticks: the counter is
0 or 1, and it is 1 only right behind a tick. -/
theorem runEvents_counter_le_one (evs : List Event) (k : KeepaliveTask) (n : Nat)
    (hexit : k.exit ≠ some .limitExceeded) (hle : k.peer.pingCount ≤ 1)
    (hone : k.peer.pingCount = 1 → ∀ e rest, evs = e :: rest → e.isTick = false)
    (h : recvBetweenTicks evs = true) :
    (runEvents k (evs.take n)).peer.pingCount ≤ 1 ∧
    (runEvents k (evs.take n)).exit ≠ some .limitExceeded := by
  induction evs generalizing k n with
  | nil => simpa [runEvents] using ⟨hle, hexit⟩
  | cons e rest ih =>
    cases n with
    | zero => simpa [runEvents] using ⟨hle, hexit⟩
    | succ n =>
      show (runEvents (applyEvent k e) (rest.take n)).peer.pingCount ≤ 1 ∧
        (runEvents (applyEvent k e) (rest.take n)).exit ≠ some .limitExceeded
      have htail := recvBetweenTicks_tail e rest h
      cases e with
      | recv =>
        refine ih _ n hexit ?_ ?_ htail
        · simp [applyEvent, storePingCountZero]
        · intro h1
          simp [applyEvent, storePingCountZero] at h1
      | tick env =>
        have hzero : k.peer.pingCount = 0 := by
          by_contra hne
          have h1 : k.peer.pingCount = 1 := by omega
          have := hone h1 (Event.tick env) rest rfl
          simp [Event.isTick] at this
        obtain ⟨hcount, hlim⟩ := keepaliveStep_pingCount k env hexit
        rw [hzero] at hcount hlim
        refine ih _ n ?_ ?_ ?_ htail
        · intro hx
          have := hlim hx
          simp [pingCountLimit] at this
        · show (keepaliveStep k env).peer.pingCount ≤ 1
          rcases hcount with hc | hc <;> rw [hc] <;> norm_num
        · intro _ e2 rest2 hrest
          subst hrest
          exact recvBetweenTicks_head env e2 rest2 h

/-- C7: no false dead-peer closure.  Run any sequence of events on a peer whose
counter is 0 and whose keepalive goroutine runs: ticks of the goroutine (write
a keepalive, add 1 to the counter, leave and close when the counter is above 3)
and receive events (`ReadPacket` reads a type code and stores 0).  When a
receive event stands between any two consecutive ticks, then after every prefix
of the sequence the counter is at most the limit 3 (indeed at most 1) and the
goroutine has not left its loop because of the counter. -/
theorem keepalive_on_schedule_never_exceeds_limit (k : KeepaliveTask) (evs : List Event)
    (h0 : k.peer.pingCount = 0) (hrun : k.exit = none)
    (h : recvBetweenTicks evs = true) (n : Nat) :
    (runEvents k (evs.take n)).peer.pingCount ≤ pingCountLimit ∧
    (runEvents k (evs.take n)).peer.pingCount ≤ 1 ∧
    (runEvents k (evs.take n)).exit ≠ some .limitExceeded := by
  have key := runEvents_counter_le_one evs k n (by rw [hrun]; simp) (by omega)
    (by intro h1; omega) h
  refine ⟨?_, key.1, key.2⟩
  have := key.1
  simp only [pingCountLimit]
  omega

/-- C7 at a run of six events in which a receive stands between the ticks. -/
theorem keepalive_on_schedule_never_exceeds_limit_witness :
    (startKeepalive (peerOn 7 [])).peer.pingCount = 0 ∧
    (startKeepalive (peerOn 7 [])).exit = none ∧
    recvBetweenTicks [Event.tick ⟨true, true, 0⟩, Event.recv, Event.tick ⟨true, true, 0⟩,
      Event.recv, Event.recv, Event.tick ⟨true, true, 0⟩] = true ∧
    (runEvents (startKeepalive (peerOn 7 []))
      ([Event.tick ⟨true, true, 0⟩, Event.recv, Event.tick ⟨true, true, 0⟩,
        Event.recv, Event.recv, Event.tick ⟨true, true, 0⟩].take 6)).peer.pingCount
      ≤ pingCountLimit ∧
    (runEvents (startKeepalive (peerOn 7 []))
      ([Event.tick ⟨true, true, 0⟩, Event.recv, Event.tick ⟨true, true, 0⟩,
        Event.recv, Event.recv, Event.tick ⟨true, true, 0⟩].take 6)).peer.pingCount ≤ 1 ∧
    (runEvents (startKeepalive (peerOn 7 []))
      ([Event.tick ⟨true, true, 0⟩, Event.recv, Event.tick ⟨true, true, 0⟩,
        Event.recv, Event.recv, Event.tick ⟨true, true, 0⟩].take 6)).exit
      ≠ some .limitExceeded :=
  ⟨rfl, rfl, by decide,
    keepalive_on_schedule_never_exceeds_limit (startKeepalive (peerOn 7 []))
      [Event.tick ⟨true, true, 0⟩, Event.recv, Event.tick ⟨true, true, 0⟩,
        Event.recv, Event.recv, Event.tick ⟨true, true, 0⟩] rfl rfl (by decide) 6⟩


/-- The goroutine of a new peer after `n ≤ 3` turns whose writes succeed: it
still runs, has slept `3n` seconds, and has written `n` keepalives. -/
theorem keepaliveRun_first_turns (p : TCPPeer) (hopen : p.isClose = false)
    (hzero : p.pingCount = 0) (envs : List WriteEnv)
    (hok : ∀ e ∈ envs, e.deadlineOk = true ∧ e.writeOk = true) (hlen : envs.length ≤ 3) :
    keepaliveRun (startKeepalive p) envs =
      { peer := { p with
          conn := { p.conn with
            written := p.conn.written ++ List.replicate envs.length (Uint16ToBytes p.pingType) },
          pingCount := envs.length },
        slept := pingInterval * envs.length, exit := none } := by
  induction envs using List.reverseRecOn with
  | nil =>
    obtain ⟨⟨i, w, c⟩, id, nm, cl, ct, pc, pt⟩ := p
    simp only at hzero
    subst hzero
    simp [keepaliveRun, startKeepalive]
  | append_singleton envs e ih =>
    have hok1 : ∀ e ∈ envs, e.deadlineOk = true ∧ e.writeOk = true :=
      fun x hx => hok x (by simp [hx])
    have he := hok e (by simp)
    have hlen1 : envs.length ≤ 2 := by simp at hlen; omega
    have ih1 := ih hok1 (by omega)
    simp only [keepaliveRun, List.foldl_append, List.foldl_cons, List.foldl_nil] at ih1 ⊢
    rw [ih1, keepaliveStep_ok _ e rfl hopen he.1 he.2]
    have hmod : (envs.length + 1) % 2 ^ 64 = envs.length + 1 := by omega
    have hlim : ¬ (envs.length + 1 > pingCountLimit) := by
      simp only [pingCountLimit]; omega
    simp only [hmod, hlim, if_false, List.length_append, List.length_singleton,
      List.replicate_succ', List.append_assoc, Nat.mul_add, Nat.mul_one]

/-- C8: a silent remote is detected and the peer closed within 12 time-units.
Take a new peer whose counter is never reset and let every keepalive write
succeed, one turn of the goroutine per element of `envs`, each turn followed by
the sleep of 3 seconds.  During the first three turns the goroutine runs, and
after `n ≤ 3` turns it has written `n` keepalives, counted to `n` and slept
`3n` seconds.  The fourth turn writes the fourth keepalive, counts to 4, which
is above the limit 3, and leaves the loop; the deferred `Close` closes the
peer.  From then on, whatever the number of turns, the goroutine has ended by
the limit, `IsClosed` is true, and the time slept is 9 seconds, at most 12. -/
theorem silent_remote_closed_within_12 (conn : Conn) (ID Name : String) (connectedTime : Int)
    (hashed : Nat) (envs : List WriteEnv)
    (hok : ∀ e ∈ envs, e.deadlineOk = true ∧ e.writeOk = true) :
    (envs.length ≤ 3 →
      (keepaliveRun (startKeepalive (NewTCPPeer conn ID Name connectedTime hashed)) envs).exit
        = none ∧
      IsClosed
        (keepaliveRun (startKeepalive (NewTCPPeer conn ID Name connectedTime hashed)) envs).peer
        = false ∧
      (keepaliveRun (startKeepalive (NewTCPPeer conn ID Name connectedTime hashed))
        envs).peer.pingCount = envs.length ∧
      (keepaliveRun (startKeepalive (NewTCPPeer conn ID Name connectedTime hashed))
        envs).peer.conn.written
        = conn.written ++ List.replicate envs.length (Uint16ToBytes (hashed % 2 ^ 16)) ∧
      (keepaliveRun (startKeepalive (NewTCPPeer conn ID Name connectedTime hashed)) envs).slept
        = 3 * envs.length) ∧
    (4 ≤ envs.length →
      (keepaliveRun (startKeepalive (NewTCPPeer conn ID Name connectedTime hashed)) envs).exit
        = some .limitExceeded ∧
      IsClosed
        (keepaliveRun (startKeepalive (NewTCPPeer conn ID Name connectedTime hashed)) envs).peer
        = true ∧
      (keepaliveRun (startKeepalive (NewTCPPeer conn ID Name connectedTime hashed))
        envs).peer.pingCount = 4 ∧
      (keepaliveRun (startKeepalive (NewTCPPeer conn ID Name connectedTime hashed))
        envs).peer.conn.written
        = conn.written ++ List.replicate 4 (Uint16ToBytes (hashed % 2 ^ 16)) ∧
      (keepaliveRun (startKeepalive (NewTCPPeer conn ID Name connectedTime hashed))
        envs).peer.conn.closeCalls = conn.closeCalls + 1 ∧
      (keepaliveRun (startKeepalive (NewTCPPeer conn ID Name connectedTime hashed)) envs).slept
        = 9 ∧
      (keepaliveRun (startKeepalive (NewTCPPeer conn ID Name connectedTime hashed)) envs).slept
        ≤ 12) := by
  constructor
  · intro hlen
    rw [keepaliveRun_first_turns _ rfl rfl envs hok hlen]
    exact ⟨rfl, rfl, rfl, rfl, rfl⟩
  · intro hlen
    obtain ⟨e1, e2, e3, e4, rest, rfl⟩ : ∃ e1 e2 e3 e4 rest, envs = [e1, e2, e3] ++ e4 :: rest := by
      match envs, hlen with
      | e1 :: e2 :: e3 :: e4 :: rest, _ => exact ⟨e1, e2, e3, e4, rest, rfl⟩
    have h3 := keepaliveRun_first_turns (NewTCPPeer conn ID Name connectedTime hashed) rfl rfl
      [e1, e2, e3] (fun e he => hok e (by simp at he ⊢; tauto)) (by simp)
    have he4 := hok e4 (by simp)
    have hrun : keepaliveRun (startKeepalive (NewTCPPeer conn ID Name connectedTime hashed))
        ([e1, e2, e3] ++ e4 :: rest)
        = keepaliveRun (keepaliveStep
            (keepaliveRun (startKeepalive (NewTCPPeer conn ID Name connectedTime hashed))
              [e1, e2, e3]) e4) rest := by
      simp [keepaliveRun]
    rw [hrun, h3, keepaliveStep_ok _ e4 rfl rfl he4.1 he4.2]
    have hlim : ((3 : Nat) + 1) % 2 ^ 64 > pingCountLimit := by
      simp [pingCountLimit]
    simp only [List.length_cons, List.length_nil, Nat.zero_add, Nat.reduceAdd] at hlim ⊢
    rw [if_pos hlim, keepaliveRun_exited rest _ .limitExceeded rfl]
    refine ⟨rfl, rfl, rfl, ?_, rfl, rfl, by simp [pingInterval]⟩
    simp [Close, Conn.Close, NewTCPPeer, List.replicate]

/-- C8 at a new peer: two turns leave the goroutine running with 6 seconds
slept; five turns leave the peer closed with 9 seconds slept. -/
theorem silent_remote_closed_within_12_witness :
    ([(⟨true, true, 0⟩ : WriteEnv), ⟨true, true, 0⟩].length ≤ 3 ∧
      (keepaliveRun (startKeepalive (NewTCPPeer ⟨[], [], 0⟩ "a" "" 0 7))
        [⟨true, true, 0⟩, ⟨true, true, 0⟩]).slept = 3 * 2) ∧
    (4 ≤ [(⟨true, true, 0⟩ : WriteEnv), ⟨true, true, 0⟩, ⟨true, true, 0⟩, ⟨true, true, 0⟩,
        ⟨true, true, 0⟩].length ∧
      IsClosed (keepaliveRun (startKeepalive (NewTCPPeer ⟨[], [], 0⟩ "a" "" 0 7))
        [⟨true, true, 0⟩, ⟨true, true, 0⟩, ⟨true, true, 0⟩, ⟨true, true, 0⟩,
          ⟨true, true, 0⟩]).peer = true ∧
      (keepaliveRun (startKeepalive (NewTCPPeer ⟨[], [], 0⟩ "a" "" 0 7))
        [⟨true, true, 0⟩, ⟨true, true, 0⟩, ⟨true, true, 0⟩, ⟨true, true, 0⟩,
          ⟨true, true, 0⟩]).slept = 9) :=
  ⟨⟨by decide,
    ((silent_remote_closed_within_12 ⟨[], [], 0⟩ "a" "" 0 7
      [⟨true, true, 0⟩, ⟨true, true, 0⟩] (by decide)).1 (by decide)).2.2.2.2⟩,
   ⟨by decide,
    ((silent_remote_closed_within_12 ⟨[], [], 0⟩ "a" "" 0 7
      [⟨true, true, 0⟩, ⟨true, true, 0⟩, ⟨true, true, 0⟩, ⟨true, true, 0⟩, ⟨true, true, 0⟩]
      (by decide)).2 (by decide)).2.1,
    ((silent_remote_closed_within_12 ⟨[], [], 0⟩ "a" "" 0 7
      [⟨true, true, 0⟩, ⟨true, true, 0⟩, ⟨true, true, 0⟩, ⟨true, true, 0⟩, ⟨true, true, 0⟩]
      (by decide)).2 (by decide)).2.2.2.2.2.1⟩⟩

/-! ## `ReadPacket` on frames whose size fits 32 bits -/

/-- Type, length and payload read back from an encoded packet are the
originals. -/
theorem decodeFrame_encodePacket (t : Nat) (payload : List Byte) (ht : t < 65536)
    (hn : payload.length < 2 ^ 32) :
    decodeFrame (encodePacket t payload) = some (t, payload.length, payload) := by
  obtain ⟨b0, b1, hb, hbv⟩ := Uint16ToBytes_decode t ht
  obtain ⟨l0, l1, l2, l3, hl, hlv⟩ := Uint32ToBytes_decode payload.length hn
  simp [encodePacket, hb, hl, decodeFrame, hbv, hlv]

/-- Keepalives in front of a packet are dropped and the packet is returned:
`ReadPacket` consumes the `2k` bytes of the keepalives and the `6+n` bytes of
the frame and nothing of what follows, provided `6+n` fits 32 bits. -/
theorem ReadPacket_pings_then_packet (k : Nat) (p : TCPPeer) (t : Nat)
    (payload rest : List Byte) (hp : p.pingType < 65536) (ht : t < 65536)
    (hne : t ≠ p.pingType) (hn : 6 + payload.length < 2 ^ 32)
    (h : p.conn.input = pings p.pingType k ++ (encodePacket t payload ++ rest)) :
    ReadPacket p = (.ok (encodePacket t payload), afterType p rest) ∧
    (pings p.pingType k ++ encodePacket t payload).length = 2 * k + (6 + payload.length) := by
  constructor
  · cases k with
    | zero =>
      exact ReadPacket_encodePacket p t payload rest ht hne hn (by simpa [pings] using h)
    | succ k =>
      rw [ReadPacket_pings k p _ hp h]
      exact ReadPacket_encodePacket _ t payload rest ht hne hn rfl
  · have hlen : ∀ j, (pings p.pingType j).length = 2 * j := by
      intro j
      induction j with
      | zero => rfl
      | succ j ih => simp [pings, pingBytes, Uint16ToBytes, ih]; omega
    simp [hlen, encodePacket, Uint16ToBytes, Uint32ToBytes]
    omega

/-- A stream of keepalives alone, or no stream at all, ends in the error. -/
theorem ReadPacket_only_pings (k : Nat) (p : TCPPeer) (hp : p.pingType < 65536)
    (h : p.conn.input = pings p.pingType k) : (ReadPacket p).1 = .err := by
  cases k with
  | zero =>
    rw [ReadPacket_short p (by rw [h]; simp [pings])]
  | succ k =>
    rw [ReadPacket_pings k p [] hp (by rw [h]; simp)]
    rw [ReadPacket_short _ (by simp)]

/-- Without a length of `2^32 - 6` or more behind the keepalives, `ReadPacket`
never panics: it returns a frame or the error. -/
theorem ReadPacket_no_panic (p : TCPPeer)
    (h : ∀ b0 b1 l0 l1 l2 l3 rest,
      skipPings p.pingType p.conn.input = b0 :: b1 :: l0 :: l1 :: l2 :: l3 :: rest →
      6 + (l0.val + 256 * l1.val + 65536 * l2.val + 16777216 * l3.val) < 2 ^ 32) :
    (ReadPacket p).1 ≠ .panic := by
  rw [ReadPacket_eq_decodeOutcome]
  unfold decodeOutcome
  split
  · rename_i b0 b1 l0 l1 l2 l3 rest heq
    have := h b0 b1 l0 l1 l2 l3 rest heq
    have hnot : ¬ (2 ^ 32 ≤ 6 + (l0.val + 256 * l1.val + 65536 * l2.val + 16777216 * l3.val)) := by
      omega
    simp only [hnot, if_false]
    split <;> simp
  · simp

/-- `ReadPacket` touches only the stream and the counter. -/
theorem ReadPacket_other_fields (p : TCPPeer) :
    (ReadPacket p).2.id = p.id ∧ (ReadPacket p).2.name = p.name ∧
    (ReadPacket p).2.isClose = p.isClose ∧ (ReadPacket p).2.connectedTime = p.connectedTime ∧
    (ReadPacket p).2.pingType = p.pingType ∧
    (ReadPacket p).2.conn.written = p.conn.written ∧
    (ReadPacket p).2.conn.closeCalls = p.conn.closeCalls := by
  refine ReadPacket_cases
    (fun p r => r.2.id = p.id ∧ r.2.name = p.name ∧ r.2.isClose = p.isClose ∧
      r.2.connectedTime = p.connectedTime ∧ r.2.pingType = p.pingType ∧
      r.2.conn.written = p.conn.written ∧ r.2.conn.closeCalls = p.conn.closeCalls)
    ?_ ?_ ?_ ?_ ?_ ?_ p
  · intro p _; exact ⟨rfl, rfl, rfl, rfl, rfl, rfl, rfl⟩
  · intro p b0 b1 rest _ _ ih; exact ih
  · intro p b0 b1 rest _ _ _; exact ⟨rfl, rfl, rfl, rfl, rfl, rfl, rfl⟩
  · intro p b0 b1 l0 l1 l2 l3 rest _ _ _; exact ⟨rfl, rfl, rfl, rfl, rfl, rfl, rfl⟩
  · intro p b0 b1 l0 l1 l2 l3 rest _ _ _ _; exact ⟨rfl, rfl, rfl, rfl, rfl, rfl, rfl⟩
  · intro p b0 b1 l0 l1 l2 l3 rest _ _ _ _; exact ⟨rfl, rfl, rfl, rfl, rfl, rfl, rfl⟩

end P2P
